import Mathlib

/-!
Verification of the QOI compression-decision simulator (QoiVisualizer).

The definitions below are a shallow embedding of the Rust sources
`src/pixel.rs` (pixel algebra: pixel representation, difference
classification, delta encodings, the 64-slot color cache) and
`src/qoi.rs` (the stream analyzer: run tracking, cache dispatch,
chunk emission and size accounting).

Machine integers are modelled as follows: `u8` channel values are `Fin 256`
(so Rust's `wrapping_sub` is subtraction in `Fin 256`), `as i8`
reinterpretation is `toI8`, and packed payloads are plain `Nat` reduced by
the width of the Rust integer type where bits could be dropped.  The Rust
`unreachable!` arms are modelled by `Option`: a function returns `none`
exactly when the Rust code would panic.
-/

set_option maxRecDepth 4000

/-- RGBA8 pixel: the four 8-bit channel components of `QoiPixel` in
`src/pixel.rs` (the Rust code packs them into a `u32`; equality of the
packed word is equality of the four components). -/
structure QoiPixel where
  r : Fin 256
  g : Fin 256
  b : Fin 256
  a : Fin 256
deriving DecidableEq, Repr

/-- Reinterpretation of a `u8` as an `i8` (two's complement), as a
mathematical integer in `[-128, 127]`. -/
def toI8 (x : Fin 256) : Int :=
  if x.val < 128 then (x.val : Int) else (x.val : Int) - 256

/-- The signed channel delta `current.c.wrapping_sub(previous.c) as i8`
used by `QoiPixel::sub`. -/
def chDelta (x y : Fin 256) : Int := toI8 (x - y)

/-- Membership of a value in an inclusive range, modelling the local
`in_bounds` helper of `QoiPixel::sub`. -/
def inBounds (lo hi v : Int) : Prop := lo ≤ v ∧ v ≤ hi

instance (lo hi v : Int) : Decidable (inBounds lo hi v) := by
  unfold inBounds; infer_instance

/-- Population count of an 8-bit value, modelling `u8::count_ones`.
Structural fuel recursion over the 8 bits so that the kernel can
evaluate it. -/
def countOnesAux : Nat → Nat → Nat
  | 0, _ => 0
  | fuel + 1, n => n % 2 + countOnesAux fuel (n / 2)

/-- Number of set bits of an 8-bit value (`u8::count_ones`). -/
def countOnes (n : Nat) : Nat := countOnesAux 8 n

/-- Pixel differences: `PixelDiff` of `src/pixel.rs`
(QOI_DIFF_8, QOI_DIFF_16, QOI_DIFF_24) with their packed payloads. -/
inductive PixelDiff where
  | Diff8 (v : Nat)                     -- 0b00rrggbb
  | Diff16 (v : Nat)                    -- 0b000rrrrr_ggggbbbb
  | Diff24 (diff_r : Nat) (diff_gba : Nat)  -- 0b000rrrrr, 0b0gggggbbbbbaaaaa
deriving DecidableEq, Repr

/-- Result of classifying one pixel against another: `DiffOrColor` of
`src/pixel.rs`.  The `Color` payload is the 0b0000rgba differs mask. -/
inductive DiffOrColor where
  | Diff (d : PixelDiff)
  | Color (mask : Nat)
deriving DecidableEq, Repr

/-- Bias of an unbiased `i8` delta `d` by `-lo` (Rust:
`(d as u8).wrapping_sub(lo as u8)`), yielding the unsigned field value. -/
def biasDelta (lo : Int) (d : Int) : Nat :=
  ((d - lo).emod 256).toNat

namespace PixelDiff

/-- Embeds `PixelDiff::diff8_from_biased`: `(r << 4) | (g << 2) | b` on `u8`. -/
def diff8_from_biased (r g b : Nat) : PixelDiff :=
  .Diff8 ((((r <<< 4) % 256) ||| ((g <<< 2) % 256) ||| b) % 256)

/-- Embeds `PixelDiff::diff8_from_unbiased` (bias 2 on each channel). -/
def diff8_from_unbiased (r g b : Int) : PixelDiff :=
  diff8_from_biased (biasDelta (-2) r) (biasDelta (-2) g) (biasDelta (-2) b)

/-- Embeds `PixelDiff::diff16_from_biased`: `(r << 8) | (g << 4) | b` on `u16`. -/
def diff16_from_biased (r g b : Nat) : PixelDiff :=
  .Diff16 ((((r <<< 8) % 65536) ||| ((g <<< 4) % 65536) ||| b) % 65536)

/-- Embeds `PixelDiff::diff16_from_unbiased` (bias 16 for red, 8 for
green/blue). -/
def diff16_from_unbiased (r g b : Int) : PixelDiff :=
  diff16_from_biased (biasDelta (-16) r) (biasDelta (-8) g) (biasDelta (-8) b)

/-- Embeds `PixelDiff::diff24_from_biased`:
`diff_gba = (g << 10) | (b << 5) | a` on `u16`. -/
def diff24_from_biased (r g b a : Nat) : PixelDiff :=
  .Diff24 r ((((g <<< 10) % 65536) ||| ((b <<< 5) % 65536) ||| a) % 65536)

/-- Embeds `PixelDiff::diff24_from_unbiased` (bias 16 on each channel). -/
def diff24_from_unbiased (r g b a : Int) : PixelDiff :=
  diff24_from_biased (biasDelta (-16) r) (biasDelta (-16) g)
    (biasDelta (-16) b) (biasDelta (-16) a)

end PixelDiff

/-- The 0b0000rgba differs mask computed by `QoiPixel::sub` from the four
signed channel deltas: one bit per channel with non-zero delta. -/
def differsMask (dr dg db da : Int) : Nat :=
  ((if dr ≠ 0 then 1 else 0) <<< 3) |||
  ((if dg ≠ 0 then 1 else 0) <<< 2) |||
  ((if db ≠ 0 then 1 else 0) <<< 1) |||
  (if da ≠ 0 then 1 else 0)

/-- Embeds `QoiPixel::sub` of `src/pixel.rs`: classifies `self - rhs`.
The two `return` statements inside the `da == 0` block become the two
inner branches; the fall-through code after the block (the mask
computation, QOI_DIFF_24 test and QOI_COLOR fallback) is the shared
`fallback` value. -/
def QoiPixel.sub (self rhs : QoiPixel) : DiffOrColor :=
  let dr := chDelta self.r rhs.r
  let dg := chDelta self.g rhs.g
  let db := chDelta self.b rhs.b
  let da := chDelta self.a rhs.a
  -- QOI_DIFF_8 and QOI_DIFF_16 are always not worse than QOI_COLOR.
  -- If only one component differ, QOI_COLOR is better than QOI_DIFF_24.
  let mask := differsMask dr dg db da
  let fallback : DiffOrColor :=
    if 2 ≤ countOnes mask ∧ inBounds (-16) 15 dr ∧ inBounds (-16) 15 dg ∧
        inBounds (-16) 15 db ∧ inBounds (-16) 15 da then
      .Diff (PixelDiff.diff24_from_unbiased dr dg db da)
    else
      .Color mask
  if da = 0 then
    if inBounds (-2) 1 dr ∧ inBounds (-2) 1 dg ∧ inBounds (-2) 1 db then
      .Diff (PixelDiff.diff8_from_unbiased dr dg db)
    else if inBounds (-16) 15 dr ∧ inBounds (-8) 7 dg ∧ inBounds (-8) 7 db then
      .Diff (PixelDiff.diff16_from_unbiased dr dg db)
    else fallback
  else fallback

/-- Embeds `PixelDict::hash`: `(r ^ g ^ b ^ a) & 0x3F`. -/
def pixelHash (px : QoiPixel) : Fin 64 :=
  ⟨(px.r.val ^^^ px.g.val ^^^ px.b.val ^^^ px.a.val) &&& 63,
    Nat.lt_succ_of_le Nat.and_le_right⟩

/-- The kind of classification outcome, forgetting the packed delta
payloads but keeping the Color mask.  Used to compare `QoiPixel::sub`
against the priority order stated in the specification. -/
inductive ClassKind where
  | diff8
  | diff16
  | diff24
  | color (mask : Nat)
deriving DecidableEq, Repr

/-- Projection of a classification result to its kind. -/
def classKind : DiffOrColor → ClassKind
  | .Diff (.Diff8 _) => .diff8
  | .Diff (.Diff16 _) => .diff16
  | .Diff (.Diff24 _ _) => .diff24
  | .Color mask => .color mask

/-- The classification priority order exactly as the specification words
it (a flat cascade): Diff8 if the alpha delta is 0 and all three RGB
deltas lie in [-2,1]; else Diff16 if the alpha delta is 0, the red delta
lies in [-16,15] and the green and blue deltas lie in [-8,7]; else Diff24
if the differs mask has at least 2 bits set and all four deltas lie in
[-16,15]; otherwise the Color literal carrying the differs mask. -/
def specClassify (cur prev : QoiPixel) : ClassKind :=
  let dr := chDelta cur.r prev.r
  let dg := chDelta cur.g prev.g
  let db := chDelta cur.b prev.b
  let da := chDelta cur.a prev.a
  let mask := differsMask dr dg db da
  if da = 0 ∧ inBounds (-2) 1 dr ∧ inBounds (-2) 1 dg ∧ inBounds (-2) 1 db then
    .diff8
  else if da = 0 ∧ inBounds (-16) 15 dr ∧ inBounds (-8) 7 dg ∧
      inBounds (-8) 7 db then
    .diff16
  else if 2 ≤ countOnes mask ∧ inBounds (-16) 15 dr ∧ inBounds (-16) 15 dg ∧
      inBounds (-16) 15 db ∧ inBounds (-16) 15 da then
    .diff24
  else
    .color mask

/-- Number of channels on which two pixels differ. -/
def differsCountPx (cur prev : QoiPixel) : Nat :=
  (if cur.r = prev.r then 0 else 1) + (if cur.g = prev.g then 0 else 1) +
  (if cur.b = prev.b then 0 else 1) + (if cur.a = prev.a then 0 else 1)

/-- The ten chunk kinds of `QoiChunk` in `src/qoi.rs`. -/
inductive QoiChunk where
  | Index
  | Run8
  | Run16
  | Diff8
  | Diff16
  | Diff24
  | Color1
  | Color2
  | Color3
  | Color4
deriving DecidableEq, Repr

/-- QOI_HEADER_LEN of `src/qoi.rs`. -/
def QOI_HEADER_LEN : Nat := 14

/-- QOI_PADDING_LEN of `src/qoi.rs`. -/
def QOI_PADDING_LEN : Nat := 4

/-- RUN_MAX of `src/qoi.rs`: `33 + 0x1FFF = 8224`. -/
def RUN_MAX : Nat := 33 + 0x1FFF

/-- State of the `Analyzer` of `src/qoi.rs`.  The borrowed `chunks`
vector is a list field; the 64-slot `PixelDict` is a function from slot
index to pixel. -/
structure Analyzer where
  filesize : Nat
  chunks : List QoiChunk
  px_prev : QoiPixel
  dict : Fin 64 → QoiPixel
  run : Nat
deriving Repr

namespace Analyzer

/-- Embeds `Analyzer::new` together with `PixelDict::new`: previous pixel
is opaque black, all 64 cache slots hold the zero pixel, the byte total
starts at header plus padding. -/
def new : Analyzer where
  filesize := QOI_HEADER_LEN + QOI_PADDING_LEN
  chunks := []
  px_prev := ⟨0, 0, 0, 255⟩
  dict := fun _ => ⟨0, 0, 0, 0⟩
  run := 0

/-- Embeds `Analyzer::flush_run`.  The `_ => unreachable!()` arm of the
Rust `match` (run counter above RUN_MAX) is `none`. -/
def flush_run (s : Analyzer) : Option Analyzer :=
  if s.run = 0 then
    some { s with run := 0 }
  else if s.run ≤ 32 then
    some { s with filesize := s.filesize + 1,
                  chunks := s.chunks ++ List.replicate s.run .Run8,
                  run := 0 }
  else if s.run ≤ RUN_MAX then
    some { s with filesize := s.filesize + 2,
                  chunks := s.chunks ++ List.replicate s.run .Run16,
                  run := 0 }
  else
    none

/-- The byte cost and chunk kind the analyzer derives from a
classification result (the `match px.sub(self.px_prev)` arms of
`Analyzer::update`).  The `_ => unreachable!()` arm for a Color mask
whose popcount is not 1..4 is `none`. -/
def dispatch : DiffOrColor → Option (Nat × QoiChunk)
  | .Diff (.Diff8 _) => some (1, .Diff8)
  | .Diff (.Diff16 _) => some (2, .Diff16)
  | .Diff (.Diff24 _ _) => some (3, .Diff24)
  | .Color mask =>
    match countOnes mask with
    | 1 => some (1 + 1, .Color1)
    | 2 => some (2 + 1, .Color2)
    | 3 => some (3 + 1, .Color3)
    | 4 => some (4 + 1, .Color4)
    | _ => none

/-- Embeds `Analyzer::update`.  The Rust `self.run += 1` followed by the
RUN_MAX test is inlined as the incremented-counter state appearing in both
branches; `hash` is `pixelHash px`. -/
def update (s : Analyzer) (px : QoiPixel) : Option Analyzer :=
  if px = s.px_prev then
    if s.run + 1 = RUN_MAX then { s with run := s.run + 1 }.flush_run
    else some { s with run := s.run + 1 }
  else
    match s.flush_run with
    | none => none
    | some s1 =>
      if px = s1.dict (pixelHash px) then
        some { s1 with filesize := s1.filesize + 1,
                       chunks := s1.chunks ++ [.Index],
                       px_prev := px }
      else
        match dispatch (px.sub s1.px_prev) with
        | none => none
        | some (cost, chunk) =>
          some { s1 with filesize := s1.filesize + cost,
                         chunks := s1.chunks ++ [chunk],
                         dict := Function.update s1.dict (pixelHash px) px,
                         px_prev := px }

/-- Embeds `Analyzer::finalize`: flush the pending run and read off the
byte total. -/
def finalize (s : Analyzer) : Option Nat :=
  (s.flush_run).map (·.filesize)

/-- Feeding a pixel sequence to the analyzer, one `update` per pixel (the
`for px in pixels` loop of `qoi_analyze`). -/
def runA (s : Analyzer) : List QoiPixel → Option Analyzer
  | [] => some s
  | px :: rest =>
    match s.update px with
    | none => none
    | some s' => runA s' rest

end Analyzer

/-- Embeds `qoi_analyze` of `src/qoi.rs` on an already-decoded pixel
sequence: returns the total byte count and the chunk-kind sequence. -/
def qoi_analyze (pixels : List QoiPixel) : Option (Nat × List QoiChunk) :=
  match Analyzer.runA Analyzer.new pixels with
  | none => none
  | some s =>
    match s.flush_run with
    | none => none
    | some s' => some (s'.filesize, s'.chunks)

/-- The ten chunk kinds, in declaration order (used to total the
histogram built at the end of `qoi_analyze`). -/
def allChunkKinds : List QoiChunk :=
  [.Index, .Run8, .Run16, .Diff8, .Diff16, .Diff24,
   .Color1, .Color2, .Color3, .Color4]

/-- The histogram built by `qoi_analyze`: how many entries of the
chunk-kind sequence carry each kind. -/
def histogram (c : List QoiChunk) (k : QoiChunk) : Nat := c.count k

/-- Sum of all ten histogram entries. -/
def histogramSum (c : List QoiChunk) : Nat :=
  (allChunkKinds.map (histogram c)).sum

/-- Per-entry byte cost of the non-run chunk kinds as the specification
lists them: 1 per cache reference, 1 per Diff8, 2 per Diff16, 3 per
Diff24, 1+k per Color entry with k differing channels.  (Run kinds are
costed per flush group, via `blockCost`.) -/
def entryCost : QoiChunk → Nat
  | .Index => 1
  | .Run8 => 1
  | .Run16 => 2
  | .Diff8 => 1
  | .Diff16 => 2
  | .Diff24 => 3
  | .Color1 => 2
  | .Color2 => 3
  | .Color3 => 4
  | .Color4 => 5

/-- Byte cost of one maximal block of `len` equal consecutive entries of
kind `k` in a chunk-kind sequence.  A short-run block is one flush group
(1 byte); a long-run block of length `len` is made of full flush groups
of RUN_MAX entries plus a final partial group, so it contains
ceil(len / RUN_MAX) flush groups of 2 bytes each; every other kind is
costed per entry. -/
def blockCost : QoiChunk → Nat → Nat
  | .Run8, _ => 1
  | .Run16, len => 2 * ((len + (RUN_MAX - 1)) / RUN_MAX)
  | k, len => len * entryCost k

/-- Folds `blockCost` over the maximal equal blocks of a list, carrying
the kind and length of the block currently being scanned. -/
def costBlocks : QoiChunk → Nat → List QoiChunk → Nat
  | k, len, [] => blockCost k len
  | k, len, k' :: rest =>
    if k' = k then costBlocks k (len + 1) rest
    else blockCost k len + costBlocks k' 1 rest

/-- Block-structured byte cost of a reversed chunk-kind sequence. -/
def seqCostR : List QoiChunk → Nat
  | [] => 0
  | k :: rest => costBlocks k 1 rest

/-- The byte cost implied by a chunk-kind sequence, per the
specification's cost table: sum of `blockCost` over maximal equal
blocks (scanned from the end of the list, where the analyzer appends). -/
def seqCost (c : List QoiChunk) : Nat := seqCostR c.reverse

/-- The subsequence of input pixels that are processed outside the run
path: those that differ from the previous pixel at the moment they are
processed (`prev` is the analyzer's previous pixel when the list
starts). -/
def nonRunSeen (prev : QoiPixel) : List QoiPixel → List QoiPixel
  | [] => []
  | p :: rest => if p = prev then nonRunSeen prev rest else p :: nonRunSeen p rest

/-- Modelled from the spec: the most recently seen pixel of a list whose
hash equals `h`, if any (`none` when no pixel with hash `h` occurs). -/
def lastWithHash (h : Fin 64) : List QoiPixel → Option QoiPixel
  | [] => none
  | p :: rest =>
    match lastWithHash h rest with
    | some q => some q
    | none => if pixelHash p = h then some p else none

/-- The (current, previous) argument pairs on which one `Analyzer::update`
step invokes `QoiPixel::sub`, mirroring the branch structure of
`update`: no invocation on the run path or on a cache hit. -/
def Analyzer.classifyCalls (s : Analyzer) (px : QoiPixel) :
    List (QoiPixel × QoiPixel) :=
  if px = s.px_prev then []
  else
    match s.flush_run with
    | none => []
    | some s1 =>
      if px = s1.dict (pixelHash px) then [] else [(px, s1.px_prev)]

/-- All (current, previous) argument pairs on which `QoiPixel::sub` is
invoked while the analyzer processes a pixel sequence. -/
def Analyzer.runCalls (s : Analyzer) : List QoiPixel → List (QoiPixel × QoiPixel)
  | [] => []
  | px :: rest =>
    s.classifyCalls px ++
      match s.update px with
      | none => []
      | some s' => s'.runCalls rest

/-- Structural invariant of the chunk sequences the analyzer can hold
while scanning: reading from the end, the sequence is a (possibly empty)
Run16 block whose length is a multiple of RUN_MAX (only forced flushes
have emitted Run16 so far at the end), followed by a part that starts
with neither a Run16 nor a Run8 entry. -/
def ChunksShape (c : List QoiChunk) : Prop :=
  ∃ T r', c.reverse = List.replicate T QoiChunk.Run16 ++ r' ∧ T % RUN_MAX = 0 ∧
    r'.head? ≠ some QoiChunk.Run16 ∧ r'.head? ≠ some QoiChunk.Run8

/-- The size-accounting invariant of reachable analyzer states: the byte
total is header plus padding plus the block-structured cost of the chunks
emitted so far, the run counter is below RUN_MAX, and the chunk sequence
has the shape of an in-progress scan. -/
def SizeInv (s : Analyzer) : Prop :=
  s.filesize = QOI_HEADER_LEN + QOI_PADDING_LEN + seqCost s.chunks ∧
  s.run < RUN_MAX ∧ ChunksShape s.chunks

example : QoiPixel.sub ⟨0, 0, 0, 255⟩ ⟨2, 0, 255, 255⟩ =
    .Diff (PixelDiff.diff8_from_unbiased (-2) 0 1) := by decide

example : QoiPixel.sub ⟨0, 0, 0, 255⟩ ⟨16, 8, 249, 255⟩ =
    .Diff (PixelDiff.diff16_from_unbiased (-16) (-8) 7) := by decide

example : QoiPixel.sub ⟨0, 0, 0, 255⟩ ⟨241, 16, 9, 247⟩ =
    .Diff (PixelDiff.diff24_from_unbiased 15 (-16) (-9) 8) := by decide

example : QoiPixel.sub ⟨0, 0, 0, 255⟩ ⟨1, 1, 30, 255⟩ = .Color 14 := by decide

example : QoiPixel.sub ⟨0, 0, 0, 255⟩ ⟨0, 9, 0, 255⟩ = .Color 4 := by decide

example : qoi_analyze [⟨1, 2, 3, 4⟩] = some (21, [.Diff24]) := by decide

example : qoi_analyze [⟨0, 0, 0, 255⟩, ⟨0, 0, 0, 255⟩] =
    some (19, [.Run8, .Run8]) := by decide

/-- C1: for every pair of pixels, the classification `QoiPixel::sub`
decides by the specified priority order.  `classKind` projects the result
to its kind (keeping the Color mask); `specClassify` is that cascade
written from the claim: Diff8 when the alpha delta is 0 and all three RGB
deltas lie in [-2,1]; else Diff16 when the alpha delta is 0, the red
delta lies in [-16,15] and the green and blue deltas lie in [-8,7]; else
Diff24 when the 4-bit differs mask has at least 2 bits set and all four
deltas lie in [-16,15]; otherwise the Color literal carrying the differs
mask. -/
theorem c1_sub_priority_order (cur prev : QoiPixel) :
    classKind (cur.sub prev) = specClassify cur prev := by
  unfold QoiPixel.sub specClassify
  dsimp only
  split_ifs <;> simp_all [classKind, PixelDiff.diff8_from_unbiased,
    PixelDiff.diff16_from_unbiased, PixelDiff.diff24_from_unbiased,
    PixelDiff.diff8_from_biased, PixelDiff.diff16_from_biased,
    PixelDiff.diff24_from_biased]

theorem toI8_eq_zero_iff (x : Fin 256) : toI8 x = 0 ↔ x = 0 := by
  unfold toI8
  have h := x.isLt
  rw [Fin.ext_iff, Fin.val_zero]
  split_ifs with h' <;> omega

theorem chDelta_eq_zero_iff (x y : Fin 256) : chDelta x y = 0 ↔ x = y := by
  unfold chDelta
  rw [toI8_eq_zero_iff, sub_eq_zero]

theorem countOnes_differsMask (dr dg db da : Int) :
    countOnes (differsMask dr dg db da) =
      (if dr = 0 then 0 else 1) + (if dg = 0 then 0 else 1) +
      (if db = 0 then 0 else 1) + (if da = 0 then 0 else 1) := by
  by_cases h1 : dr = 0 <;> by_cases h2 : dg = 0 <;> by_cases h3 : db = 0 <;>
    by_cases h4 : da = 0 <;>
    simp only [differsMask, h1, h2, h3, h4, if_true, if_false, ne_eq,
      not_true_eq_false, not_false_eq_true] <;> decide

theorem dispatch_color_differs (dr dg db da : Int)
    (h : ¬(dr = 0 ∧ dg = 0 ∧ db = 0 ∧ da = 0)) :
    (Analyzer.dispatch (.Color (differsMask dr dg db da))).isSome := by
  by_cases h1 : dr = 0 <;> by_cases h2 : dg = 0 <;> by_cases h3 : db = 0 <;>
    by_cases h4 : da = 0 <;>
    simp only [differsMask, h1, h2, h3, h4, if_true, if_false, ne_eq,
      not_true_eq_false, not_false_eq_true] <;> first | decide | exact absurd ⟨h1, h2, h3, h4⟩ h

theorem countOnes_differsMask_ne_zero {dr dg db da : Int}
    (h : ¬(dr = 0 ∧ dg = 0 ∧ db = 0 ∧ da = 0)) :
    countOnes (differsMask dr dg db da) ≠ 0 := by
  by_cases h1 : dr = 0 <;> by_cases h2 : dg = 0 <;> by_cases h3 : db = 0 <;>
    by_cases h4 : da = 0 <;>
    simp only [differsMask, h1, h2, h3, h4, if_true, if_false, ne_eq,
      not_true_eq_false, not_false_eq_true] <;>
    first | decide | exact absurd ⟨h1, h2, h3, h4⟩ h

theorem chDelta_self (x : Fin 256) : chDelta x x = 0 := by
  unfold chDelta
  rw [sub_self]
  decide

theorem sub_self_diff8 (p : QoiPixel) : p.sub p = .Diff (.Diff8 42) := by
  unfold QoiPixel.sub
  dsimp only
  simp only [chDelta_self]
  decide

theorem sub_color_countOnes_ne_zero (cur prev : QoiPixel) (m : Nat)
    (h : cur.sub prev = .Color m) : countOnes m ≠ 0 := by
  unfold QoiPixel.sub at h
  dsimp only at h
  split_ifs at h with hda h8 h16 h24 h24' <;>
  · cases h
    refine countOnes_differsMask_ne_zero ?_
    rintro ⟨hr0, hg0, hb0, ha0⟩
    first
      | exact hda ha0
      | exact h8 (by rw [hr0, hg0, hb0]; refine ⟨?_, ?_, ?_⟩ <;> decide)

theorem dispatch_sub_isSome (cur prev : QoiPixel) :
    (Analyzer.dispatch (cur.sub prev)).isSome := by
  unfold QoiPixel.sub
  dsimp only
  split_ifs with hda h8 h16 h24 h24' <;>
  first
    | rfl
    | (refine dispatch_color_differs _ _ _ _ ?_
       rintro ⟨hr0, hg0, hb0, ha0⟩
       first
         | exact hda ha0
         | exact h8 (by rw [hr0, hg0, hb0]; refine ⟨?_, ?_, ?_⟩ <;> decide))

theorem countOnes_mask_eq_differsCountPx (cur prev : QoiPixel) :
    countOnes (differsMask (chDelta cur.r prev.r) (chDelta cur.g prev.g)
      (chDelta cur.b prev.b) (chDelta cur.a prev.a)) = differsCountPx cur prev := by
  rw [countOnes_differsMask, differsCountPx]
  simp only [chDelta_eq_zero_iff]

theorem sub_single_channel_aux (cur prev : QoiPixel) (h1 : differsCountPx cur prev = 1) :
    (∀ r gba, cur.sub prev ≠ .Diff (.Diff24 r gba)) ∧
    (∀ m, cur.sub prev = .Color m →
      countOnes m = 1 ∧ Analyzer.dispatch (.Color m) = some (2, .Color1)) := by
  have hc : countOnes (differsMask (chDelta cur.r prev.r) (chDelta cur.g prev.g)
      (chDelta cur.b prev.b) (chDelta cur.a prev.a)) = 1 := by
    rw [countOnes_mask_eq_differsCountPx]; exact h1
  constructor
  · intro r gba hEq
    unfold QoiPixel.sub at hEq
    dsimp only at hEq
    split_ifs at hEq with hda h8 h16 h24 h24' <;>
      first
        | exact absurd h24.1 (by rw [hc]; decide)
        | exact absurd h24'.1 (by rw [hc]; decide)
        | simp [PixelDiff.diff8_from_unbiased, PixelDiff.diff8_from_biased,
            PixelDiff.diff16_from_unbiased, PixelDiff.diff16_from_biased] at hEq
  · intro m hEq
    unfold QoiPixel.sub at hEq
    dsimp only at hEq
    split_ifs at hEq with hda h8 h16 h24 h24' <;>
    · cases hEq
      exact ⟨hc, by simp [Analyzer.dispatch, hc]⟩

/-- C8 (amended): for every pixel pair with alpha delta 0 and RGB deltas
outside the Diff8 range but within [-16,15] for red and [-8,7] for green
and blue, classification returns Diff16.  (The original claim's example
had current and previous swapped; the corrected instance is
current=(0,0,0,255), previous=(16,8,249,255) with deltas (-16,-8,7,0),
checked in the witness.) -/
theorem c8_diff16_range_amended (cur prev : QoiPixel) (hda : chDelta cur.a prev.a = 0)
    (h8 : ¬(inBounds (-2) 1 (chDelta cur.r prev.r) ∧
      inBounds (-2) 1 (chDelta cur.g prev.g) ∧
      inBounds (-2) 1 (chDelta cur.b prev.b)))
    (hr : inBounds (-16) 15 (chDelta cur.r prev.r))
    (hg : inBounds (-8) 7 (chDelta cur.g prev.g))
    (hb : inBounds (-8) 7 (chDelta cur.b prev.b)) :
    cur.sub prev = .Diff (PixelDiff.diff16_from_unbiased (chDelta cur.r prev.r)
      (chDelta cur.g prev.g) (chDelta cur.b prev.b)) := by
  unfold QoiPixel.sub
  dsimp only
  rw [if_pos hda, if_neg h8, if_pos ⟨hr, hg, hb⟩]

theorem flush_run_fields (s s' : Analyzer) (h : s.flush_run = some s') :
    s'.px_prev = s.px_prev ∧ s'.dict = s.dict ∧ s'.run = 0 := by
  unfold Analyzer.flush_run at h
  split_ifs at h <;> cases h <;> exact ⟨rfl, rfl, rfl⟩

theorem flush_run_zero (s : Analyzer) (h : s.run = 0) : s.flush_run = some s := by
  unfold Analyzer.flush_run
  rw [if_pos h, ← h]

theorem flush_run_len (s s' : Analyzer) (h : s.flush_run = some s') :
    s'.chunks.length + s'.run = s.chunks.length + s.run := by
  unfold Analyzer.flush_run at h
  split_ifs at h with h0 h32 hmax <;> cases h
  · dsimp only; omega
  · dsimp only; rw [List.length_append, List.length_replicate]; omega
  · dsimp only; rw [List.length_append, List.length_replicate]; omega

theorem update_len (s : Analyzer) (px : QoiPixel) (s' : Analyzer)
    (h : s.update px = some s') :
    s'.chunks.length + s'.run = s.chunks.length + s.run + 1 := by
  unfold Analyzer.update at h
  split_ifs at h with hpx hmax
  · have h2 := flush_run_len _ _ h
    dsimp only at h2
    omega
  · cases h; dsimp only; omega
  · revert h
    cases hf : s.flush_run with
    | none => intro h; cases h
    | some s1 =>
      have hlen := flush_run_len _ _ hf
      have hr0 := (flush_run_fields _ _ hf).2.2
      intro h
      dsimp only at h
      split_ifs at h with hhit
      · cases h; simp; omega
      · revert h
        cases hd : Analyzer.dispatch (px.sub s1.px_prev) with
        | none => intro h; cases h
        | some ck =>
          intro h
          cases h
          simp
          omega

theorem runA_len (l : List QoiPixel) (s s' : Analyzer)
    (h : Analyzer.runA s l = some s') :
    s'.chunks.length + s'.run = s.chunks.length + s.run + l.length := by
  induction l generalizing s with
  | nil => cases h; simp
  | cons px rest ih =>
    unfold Analyzer.runA at h
    revert h
    cases hu : s.update px with
    | none => intro h; cases h
    | some s1 =>
      intro h
      have h1 := update_len _ _ _ hu
      have h2 := ih _ h
      simp only [List.length_cons]
      omega

theorem histogramSum_eq_length (c : List QoiChunk) : histogramSum c = c.length := by
  induction c with
  | nil => rfl
  | cons k c ih =>
    unfold histogramSum histogram allChunkKinds at ih ⊢
    cases k <;> simp only [List.count_cons, List.map, List.sum_cons,
      List.length_cons] <;> simp_all <;> omega

/-- C4: the chunk-kind sequence returned by `qoi_analyze` contains
exactly one entry per input pixel, and consequently the histogram's
entries sum to exactly the input pixel count. -/
theorem c4_one_entry_per_pixel (pxs : List QoiPixel) (n : Nat) (ks : List QoiChunk)
    (h : qoi_analyze pxs = some (n, ks)) :
    ks.length = pxs.length ∧ histogramSum ks = pxs.length := by
  unfold qoi_analyze at h
  split at h
  next => exact absurd h (by simp)
  next s hr =>
    split at h
    next => exact absurd h (by simp)
    next s2 hf =>
      cases h
      have h1 := runA_len _ _ _ hr
      have h2 := flush_run_len _ _ hf
      have h3 := (flush_run_fields _ _ hf).2.2
      simp [Analyzer.new] at h1
      constructor
      · omega
      · rw [histogramSum_eq_length]; omega

theorem update_same_small (s : Analyzer) (px : QoiPixel) (hpx : px = s.px_prev)
    (hmax : s.run + 1 ≠ RUN_MAX) :
    s.update px = some { s with run := s.run + 1 } := by
  unfold Analyzer.update
  rw [if_pos hpx, if_neg hmax]

theorem flush_run_short (s : Analyzer) (h1 : 1 ≤ s.run) (h2 : s.run ≤ 32) :
    s.flush_run = some { s with
      filesize := s.filesize + 1,
      chunks := s.chunks ++ List.replicate s.run QoiChunk.Run8,
      run := 0 } := by
  unfold Analyzer.flush_run
  rw [if_neg (by omega), if_pos h2]

theorem flush_run_long (s : Analyzer) (h1 : 33 ≤ s.run) (h2 : s.run ≤ RUN_MAX) :
    s.flush_run = some { s with
      filesize := s.filesize + 2,
      chunks := s.chunks ++ List.replicate s.run QoiChunk.Run16,
      run := 0 } := by
  unfold Analyzer.flush_run
  rw [if_neg (by omega), if_neg (by omega), if_pos h2]

theorem update_same_force (s : Analyzer) (px : QoiPixel) (hpx : px = s.px_prev)
    (hmax : s.run + 1 = RUN_MAX) :
    s.update px = some { s with
      filesize := s.filesize + 2,
      chunks := s.chunks ++ List.replicate RUN_MAX QoiChunk.Run16,
      run := 0 } := by
  unfold Analyzer.update
  rw [if_pos hpx, if_pos hmax]
  rw [flush_run_long _ (by dsimp only; rw [hmax]; decide)
    (by dsimp only; rw [hmax])]
  dsimp only
  rw [hmax]

theorem runA_cons (s : Analyzer) (px : QoiPixel) (rest : List QoiPixel) :
    Analyzer.runA s (px :: rest) =
      match s.update px with
      | none => none
      | some s' => Analyzer.runA s' rest := rfl

theorem runA_replicate_same (k : Nat) (s : Analyzer) (p : QoiPixel)
    (hp : s.px_prev = p) (hk : s.run + k < RUN_MAX) :
    Analyzer.runA s (List.replicate k p) = some { s with run := s.run + k } := by
  induction k generalizing s with
  | zero => simp [Analyzer.runA]
  | succ k ih =>
    rw [List.replicate_succ, runA_cons]
    rw [update_same_small s p hp.symm (by omega)]
    dsimp only
    rw [ih { s with run := s.run + 1 } hp (by dsimp only; omega)]
    dsimp only
    rw [show s.run + 1 + k = s.run + (k + 1) by omega]

theorem runA_append (l1 l2 : List QoiPixel) (s : Analyzer) :
    Analyzer.runA s (l1 ++ l2) =
      (Analyzer.runA s l1).bind (fun s' => Analyzer.runA s' l2) := by
  induction l1 generalizing s with
  | nil => rfl
  | cons px rest ih =>
    rw [List.cons_append, runA_cons, runA_cons]
    cases h : s.update px with
    | none => rfl
    | some s1 => exact ih s1

theorem streak_8225 (s : Analyzer) (p : QoiPixel) (hp : s.px_prev = p)
    (h0 : s.run = 0) :
    ∃ s' s'', Analyzer.runA s (List.replicate 8225 p) = some s' ∧
      s'.chunks = s.chunks ++ List.replicate 8224 QoiChunk.Run16 ∧
      s'.run = 1 ∧
      s'.flush_run = some s'' ∧
      s''.chunks = (s.chunks ++ List.replicate 8224 QoiChunk.Run16) ++
        List.replicate 1 QoiChunk.Run8 ∧ s''.run = 0 := by
  have e1 : List.replicate 8225 p = List.replicate 8223 p ++ (p :: p :: []) := by
    rw [show (8225 : Nat) = 8223 + 2 from rfl, List.replicate_add]
    rfl
  rw [e1, runA_append]
  rw [runA_replicate_same 8223 s p hp (by rw [h0]; decide)]
  dsimp only [Option.bind]
  rw [runA_cons]
  rw [update_same_force _ p (by dsimp only; exact hp.symm)
    (by dsimp only; rw [h0]; decide)]
  dsimp only
  rw [runA_cons]
  rw [update_same_small _ p (by dsimp only; exact hp.symm) (by dsimp only; decide)]
  dsimp only
  simp only [Analyzer.runA]
  refine ⟨{ s with
      filesize := s.filesize + 2,
      chunks := s.chunks ++ List.replicate RUN_MAX QoiChunk.Run16,
      run := 0 + 1 }, { s with
      filesize := s.filesize + 2 + 1,
      chunks := (s.chunks ++ List.replicate RUN_MAX QoiChunk.Run16) ++
        List.replicate 1 QoiChunk.Run8,
      run := 0 }, rfl, rfl, rfl, ?_, rfl, rfl⟩
  rw [flush_run_short _ (by dsimp only; decide) (by dsimp only; decide)]

theorem update_eq_fields (s : Analyzer) (px : QoiPixel) (s1 : Analyzer)
    (hpx : px = s.px_prev) (hu : s.update px = some s1) :
    s1.px_prev = s.px_prev ∧ s1.dict = s.dict := by
  unfold Analyzer.update at hu
  rw [if_pos hpx] at hu
  split_ifs at hu with hm
  · have := flush_run_fields _ _ hu
    exact ⟨this.1, this.2.1⟩
  · cases hu
    exact ⟨rfl, rfl⟩

theorem update_ne_cases (s : Analyzer) (px : QoiPixel) (s1 : Analyzer)
    (hne : px ≠ s.px_prev) (hu : s.update px = some s1) :
    s1.px_prev = px ∧
      ((px = s.dict (pixelHash px) ∧ s1.dict = s.dict) ∨
       (px ≠ s.dict (pixelHash px) ∧
         s1.dict = Function.update s.dict (pixelHash px) px)) := by
  unfold Analyzer.update at hu
  rw [if_neg hne] at hu
  revert hu
  cases hf : s.flush_run with
  | none => intro hu; cases hu
  | some s0 =>
    have hfd := (flush_run_fields _ _ hf).2.1
    intro hu
    dsimp only at hu
    rw [hfd] at hu
    split_ifs at hu with hhit
    · cases hu
      exact ⟨rfl, Or.inl ⟨hhit, rfl⟩⟩
    · revert hu
      cases hd : Analyzer.dispatch (px.sub s0.px_prev) with
      | none => intro hu; cases hu
      | some ck =>
        intro hu
        cases hu
        exact ⟨rfl, Or.inr ⟨hhit, rfl⟩⟩

theorem dispatch_entryCost (d : DiffOrColor) (cost : Nat) (k : QoiChunk)
    (h : Analyzer.dispatch d = some (cost, k)) :
    cost = entryCost k ∧ k ≠ QoiChunk.Run8 ∧ k ≠ QoiChunk.Run16 := by
  cases d with
  | Diff pd => cases pd <;> (cases h; exact ⟨rfl, by decide, by decide⟩)
  | Color mask =>
    unfold Analyzer.dispatch at h
    dsimp only at h
    rcases hcm : countOnes mask with _ | _ | _ | _ | _ | c <;> rw [hcm] at h <;>
      first
        | (cases h; exact ⟨rfl, by decide, by decide⟩)
        | cases h

/-- C5: in every update step whose pixel differs from the previous
pixel, after any pending run is flushed: if the cache slot at hash(pixel)
already equals the pixel, the analyzer appends exactly one Index entry,
adds exactly 1 byte, and leaves every cache slot unchanged (the result
record keeps the flushed state's `dict` field); otherwise it appends the
entry chosen by `QoiPixel::sub`, adds its dispatch cost, and overwrites
only the slot at hash(pixel) while the other 63 slots stay unchanged. -/
theorem c5_update_frame_effect (s : Analyzer) (px : QoiPixel) (hne : px ≠ s.px_prev)
    (s1 : Analyzer) (hf : s.flush_run = some s1) :
    (px = s1.dict (pixelHash px) →
      s.update px = some { s1 with
        filesize := s1.filesize + 1,
        chunks := s1.chunks ++ [QoiChunk.Index],
        px_prev := px }) ∧
    (px ≠ s1.dict (pixelHash px) →
      ∃ cost chunk s2, Analyzer.dispatch (px.sub s.px_prev) = some (cost, chunk) ∧
        cost = entryCost chunk ∧
        s.update px = some s2 ∧
        s2.filesize = s1.filesize + cost ∧
        s2.chunks = s1.chunks ++ [chunk] ∧
        s2.dict (pixelHash px) = px ∧
        (∀ h', h' ≠ pixelHash px → s2.dict h' = s1.dict h') ∧
        s2.px_prev = px) := by
  have hprev := (flush_run_fields _ _ hf).1
  constructor
  · intro hhit
    unfold Analyzer.update
    rw [if_neg hne, hf]
    dsimp only
    rw [if_pos hhit]
  · intro hmiss
    have hds := dispatch_sub_isSome px s.px_prev
    cases hck : Analyzer.dispatch (px.sub s.px_prev) with
    | none => rw [hck] at hds; cases hds
    | some ck =>
      obtain ⟨cost, chunk⟩ := ck
      refine ⟨cost, chunk, { s1 with
          filesize := s1.filesize + cost,
          chunks := s1.chunks ++ [chunk],
          dict := Function.update s1.dict (pixelHash px) px,
          px_prev := px },
        rfl, (dispatch_entryCost _ _ _ hck).1, ?_, rfl, rfl, ?_, ?_, rfl⟩
      · unfold Analyzer.update
        rw [if_neg hne, hf]
        dsimp only
        rw [if_neg hmiss, hprev, hck]
      · dsimp only
        rw [Function.update_apply, if_pos rfl]
      · intro h' hh
        dsimp only
        rw [Function.update_apply, if_neg hh]

theorem classifyCalls_ne (s : Analyzer) (px : QoiPixel)
    (pr : QoiPixel × QoiPixel) (h : pr ∈ s.classifyCalls px) : pr.1 ≠ pr.2 := by
  unfold Analyzer.classifyCalls at h
  split_ifs at h with hpx
  · simp at h
  · revert h
    cases hf : s.flush_run with
    | none => intro h; simp at h
    | some s1 =>
      intro h
      dsimp only at h
      split_ifs at h with hhit
      · simp at h
      · have : pr = (px, s1.px_prev) := by simpa using h
        rw [this]
        dsimp only
        rw [(flush_run_fields _ _ hf).1]
        exact hpx

theorem runCalls_ne (l : List QoiPixel) (s : Analyzer)
    (pr : QoiPixel × QoiPixel) (h : pr ∈ s.runCalls l) : pr.1 ≠ pr.2 := by
  induction l generalizing s with
  | nil => simp [Analyzer.runCalls] at h
  | cons px rest ih =>
    unfold Analyzer.runCalls at h
    rw [List.mem_append] at h
    rcases h with h | h
    · exact classifyCalls_ne _ _ _ h
    · revert h
      cases hu : s.update px with
      | none => intro h; simp at h
      | some s1 => intro h; exact ih s1 h

theorem dict_inv (l : List QoiPixel) (s s' : Analyzer)
    (h : Analyzer.runA s l = some s') (hd : Fin 64) :
    s'.dict hd = (lastWithHash hd (nonRunSeen s.px_prev l)).getD (s.dict hd) := by
  induction l generalizing s with
  | nil =>
    cases h
    rfl
  | cons px rest ih =>
    rw [runA_cons] at h
    revert h
    cases hu : s.update px with
    | none => intro h; cases h
    | some s1 =>
      intro h
      by_cases hpx : px = s.px_prev
      · have hf := update_eq_fields _ _ _ hpx hu
        unfold nonRunSeen
        rw [if_pos hpx]
        rw [← hf.1, ← hf.2]
        exact ih s1 h
      · have hc := update_ne_cases _ _ _ hpx hu
        unfold nonRunSeen
        rw [if_neg hpx]
        have ihh := ih s1 h
        rw [hc.1] at ihh
        unfold lastWithHash
        cases hL : lastWithHash hd (nonRunSeen px rest) with
        | some q =>
          rw [hL] at ihh
          simpa using ihh
        | none =>
          rw [hL] at ihh
          dsimp only [Option.getD] at ihh ⊢
          rcases hc.2 with ⟨hhit, hdict⟩ | ⟨hmiss, hdict⟩
          · rw [ihh, hdict]
            by_cases hh : pixelHash px = hd
            · rw [if_pos hh, ← hh, ← hhit]
            · rw [if_neg hh]
          · rw [ihh, hdict, Function.update_apply]
            by_cases hh : pixelHash px = hd
            · rw [if_pos hh, if_pos hh.symm]
            · rw [if_neg hh, if_neg (fun hx => hh hx.symm)]

theorem blockCost_nonrun (k : QoiChunk) (h8 : k ≠ QoiChunk.Run8)
    (h16 : k ≠ QoiChunk.Run16) (len : Nat) :
    blockCost k len = len * entryCost k := by
  cases k <;> first | rfl | exact absurd rfl h8 | exact absurd rfl h16

theorem costBlocks_nonrun_succ (k : QoiChunk) (h8 : k ≠ QoiChunk.Run8)
    (h16 : k ≠ QoiChunk.Run16) (len : Nat) (r : List QoiChunk) :
    costBlocks k (len + 1) r = entryCost k + costBlocks k len r := by
  induction r generalizing len with
  | nil =>
    unfold costBlocks
    rw [blockCost_nonrun k h8 h16, blockCost_nonrun k h8 h16, Nat.succ_mul,
      Nat.add_comm]
  | cons k' rest ih =>
    unfold costBlocks
    split_ifs with hk
    · exact ih (len + 1)
    · rw [blockCost_nonrun k h8 h16, blockCost_nonrun k h8 h16, Nat.succ_mul]
      omega

theorem costBlocks_nonrun_zero (k : QoiChunk) (h8 : k ≠ QoiChunk.Run8)
    (h16 : k ≠ QoiChunk.Run16) (r : List QoiChunk) :
    costBlocks k 0 r = seqCostR r := by
  cases r with
  | nil =>
    show blockCost k 0 = 0
    rw [blockCost_nonrun k h8 h16, Nat.zero_mul]
  | cons k' rest =>
    unfold costBlocks seqCostR
    split_ifs with hk
    · rw [hk]
    · rw [blockCost_nonrun k h8 h16, Nat.zero_mul, Nat.zero_add]

theorem seqCost_append_single (c : List QoiChunk) (k : QoiChunk)
    (h8 : k ≠ QoiChunk.Run8) (h16 : k ≠ QoiChunk.Run16) :
    seqCost (c ++ [k]) = seqCost c + entryCost k := by
  unfold seqCost
  rw [List.reverse_append]
  show seqCostR (k :: c.reverse) = seqCostR c.reverse + entryCost k
  show costBlocks k 1 c.reverse = seqCostR c.reverse + entryCost k
  rw [show (1 : Nat) = 0 + 1 from rfl, costBlocks_nonrun_succ k h8 h16,
    costBlocks_nonrun_zero k h8 h16, Nat.add_comm]

theorem costBlocks_run8_absorb (m : Nat) (len : Nat) (r : List QoiChunk) :
    costBlocks QoiChunk.Run8 len (List.replicate m QoiChunk.Run8 ++ r) =
      costBlocks QoiChunk.Run8 (len + m) r := by
  induction m generalizing len with
  | zero => rfl
  | succ m ih =>
    rw [List.replicate_succ, List.cons_append]
    unfold costBlocks
    rw [if_pos rfl, ih (len + 1), show len + 1 + m = len + (m + 1) by omega]
    rw [costBlocks.eq_def]

theorem costBlocks_run8_head (len : Nat) (r : List QoiChunk)
    (hr : r.head? ≠ some QoiChunk.Run8) :
    costBlocks QoiChunk.Run8 len r = 1 + seqCostR r := by
  cases r with
  | nil => rfl
  | cons k' rest =>
    unfold costBlocks seqCostR
    rw [if_neg (by intro hk; rw [hk] at hr; simp at hr)]
    rfl

theorem seqCost_append_run8 (c : List QoiChunk) (n : Nat) (hn : 1 ≤ n)
    (hl : c.getLast? ≠ some QoiChunk.Run8) :
    seqCost (c ++ List.replicate n QoiChunk.Run8) = seqCost c + 1 := by
  obtain ⟨m, rfl⟩ : ∃ m, n = m + 1 := ⟨n - 1, by omega⟩
  unfold seqCost
  rw [List.reverse_append, List.reverse_replicate, List.replicate_succ,
    List.cons_append]
  show costBlocks QoiChunk.Run8 1 (List.replicate m QoiChunk.Run8 ++ c.reverse) =
    seqCostR c.reverse + 1
  rw [costBlocks_run8_absorb, costBlocks_run8_head _ _ (by rwa [List.head?_reverse]),
    Nat.add_comm]

theorem costBlocks_run16_absorb (m : Nat) (len : Nat) (r : List QoiChunk) :
    costBlocks QoiChunk.Run16 len (List.replicate m QoiChunk.Run16 ++ r) =
      costBlocks QoiChunk.Run16 (len + m) r := by
  induction m generalizing len with
  | zero => rfl
  | succ m ih =>
    rw [List.replicate_succ, List.cons_append]
    unfold costBlocks
    rw [if_pos rfl, ih (len + 1), show len + 1 + m = len + (m + 1) by omega]
    rw [costBlocks.eq_def]

theorem costBlocks_run16_head (len : Nat) (r : List QoiChunk)
    (hr : r.head? ≠ some QoiChunk.Run16) :
    costBlocks QoiChunk.Run16 len r = blockCost QoiChunk.Run16 len + seqCostR r := by
  cases r with
  | nil => rfl
  | cons k' rest =>
    unfold costBlocks seqCostR
    rw [if_neg (by intro hk; rw [hk] at hr; simp at hr)]

theorem blockCost_run16_add (T n : Nat) (hT : T % RUN_MAX = 0) (h1 : 1 ≤ n)
    (h2 : n ≤ RUN_MAX) :
    blockCost QoiChunk.Run16 (n + T) = blockCost QoiChunk.Run16 T + 2 := by
  show 2 * ((n + T + (RUN_MAX - 1)) / RUN_MAX) = 2 * ((T + (RUN_MAX - 1)) / RUN_MAX) + 2
  simp only [RUN_MAX] at hT h2 ⊢
  omega

theorem seqCostR_replicate_run16 (T : Nat) (r' : List QoiChunk)
    (h16 : r'.head? ≠ some QoiChunk.Run16) :
    seqCostR (List.replicate T QoiChunk.Run16 ++ r') =
      blockCost QoiChunk.Run16 T + seqCostR r' := by
  cases T with
  | zero =>
    show seqCostR r' = blockCost QoiChunk.Run16 0 + seqCostR r'
    rw [show blockCost QoiChunk.Run16 0 = 0 from rfl, Nat.zero_add]
  | succ t =>
    rw [List.replicate_succ, List.cons_append]
    show costBlocks QoiChunk.Run16 1 (List.replicate t QoiChunk.Run16 ++ r') = _
    rw [costBlocks_run16_absorb, costBlocks_run16_head _ _ h16,
      show 1 + t = t + 1 from Nat.add_comm 1 t]

theorem seqCost_append_run16 (c : List QoiChunk) (n T : Nat) (r' : List QoiChunk)
    (hrev : c.reverse = List.replicate T QoiChunk.Run16 ++ r')
    (hT : T % RUN_MAX = 0) (h16 : r'.head? ≠ some QoiChunk.Run16)
    (h1 : 1 ≤ n) (h2 : n ≤ RUN_MAX) :
    seqCost (c ++ List.replicate n QoiChunk.Run16) = seqCost c + 2 := by
  unfold seqCost
  rw [List.reverse_append, List.reverse_replicate, hrev, ← List.append_assoc,
    ← List.replicate_add]
  rw [seqCostR_replicate_run16 _ _ h16, seqCostR_replicate_run16 _ _ h16]
  rw [blockCost_run16_add T n hT h1 h2]
  omega

theorem shape_nil : ChunksShape [] :=
  ⟨0, [], rfl, rfl, by simp, by simp⟩

theorem shape_append_single (c : List QoiChunk) (k : QoiChunk)
    (h8 : k ≠ QoiChunk.Run8) (h16 : k ≠ QoiChunk.Run16) :
    ChunksShape (c ++ [k]) := by
  refine ⟨0, k :: c.reverse, ?_, rfl, ?_, ?_⟩
  · rw [List.reverse_append]; rfl
  · simp only [List.head?_cons, ne_eq, Option.some.injEq]
    exact h16
  · simp only [List.head?_cons, ne_eq, Option.some.injEq]
    exact h8

theorem shape_getLast_ne_run8 (c : List QoiChunk) (h : ChunksShape c) :
    c.getLast? ≠ some QoiChunk.Run8 := by
  obtain ⟨T, r', hrev, hT, h16, h8⟩ := h
  rw [← List.head?_reverse, hrev]
  cases T with
  | zero => exact h8
  | succ t =>
    rw [List.replicate_succ, List.cons_append]
    simp

theorem shape_append_run16_max (c : List QoiChunk) (h : ChunksShape c) :
    ChunksShape (c ++ List.replicate RUN_MAX QoiChunk.Run16) := by
  obtain ⟨T, r', hrev, hT, h16, h8⟩ := h
  refine ⟨RUN_MAX + T, r', ?_, ?_, h16, h8⟩
  · rw [List.reverse_append, List.reverse_replicate, hrev, ← List.append_assoc,
      ← List.replicate_add]
  · simp only [RUN_MAX] at hT ⊢
    omega

theorem flush_cost_shape (B : Nat) (s s1 : Analyzer) (hf : s.flush_run = some s1)
    (hfs : s.filesize = B + seqCost s.chunks) (hsh : ChunksShape s.chunks) :
    s1.filesize = B + seqCost s1.chunks ∧ s1.run = 0 := by
  unfold Analyzer.flush_run at hf
  split_ifs at hf with h0 h32 hmax <;> cases hf
  · exact ⟨hfs, rfl⟩
  · constructor
    · dsimp only
      rw [seqCost_append_run8 _ _ (by omega) (shape_getLast_ne_run8 _ hsh), hfs]
      omega
    · rfl
  · obtain ⟨T, r', hrev, hT, h16, h8⟩ := hsh
    constructor
    · dsimp only
      rw [seqCost_append_run16 _ _ _ _ hrev hT h16 (by omega) hmax, hfs]
      omega
    · rfl

theorem update_SizeInv (s : Analyzer) (px : QoiPixel) (s' : Analyzer)
    (hu : s.update px = some s') (hs : SizeInv s) : SizeInv s' := by
  obtain ⟨hfs, hrun, hsh⟩ := hs
  unfold Analyzer.update at hu
  split_ifs at hu with hpx hmax
  · -- run counter hit RUN_MAX: forced flush
    rw [flush_run_long _ (by dsimp only; rw [hmax]; decide)
      (by dsimp only; rw [hmax])] at hu
    cases hu
    obtain ⟨T, r', hrev, hT, h16, h8⟩ := hsh
    refine ⟨?_, by show (0 : Nat) < RUN_MAX; decide, ?_⟩
    · show s.filesize + 2 = QOI_HEADER_LEN + QOI_PADDING_LEN +
        seqCost (s.chunks ++ List.replicate (s.run + 1) QoiChunk.Run16)
      rw [hmax, seqCost_append_run16 _ _ _ _ hrev hT h16 (by decide)
        (le_refl _), hfs]
      omega
    · show ChunksShape (s.chunks ++ List.replicate (s.run + 1) QoiChunk.Run16)
      rw [hmax]
      exact shape_append_run16_max _ ⟨T, r', hrev, hT, h16, h8⟩
  · cases hu
    exact ⟨hfs, by show s.run + 1 < RUN_MAX; omega, hsh⟩
  · revert hu
    cases hf : s.flush_run with
    | none => intro hu; cases hu
    | some s1 =>
      intro hu
      have hflush := flush_cost_shape _ _ _ hf hfs hsh
      have hsh1 : ChunksShape s1.chunks ∨ True := Or.inr trivial
      dsimp only at hu
      split_ifs at hu with hhit
      · cases hu
        refine ⟨?_, by dsimp only; rw [RUN_MAX]; omega, ?_⟩
        · dsimp only
          rw [show (QoiChunk.Index :: []) = [QoiChunk.Index] from rfl,
            seqCost_append_single _ _ (by decide) (by decide), hflush.1]
          rfl
        · exact shape_append_single _ _ (by decide) (by decide)
      · revert hu
        cases hd : Analyzer.dispatch (px.sub s1.px_prev) with
        | none => intro hu; cases hu
        | some ck =>
          obtain ⟨cost, chunk⟩ := ck
          intro hu
          cases hu
          obtain ⟨hce, hck8, hck16⟩ := dispatch_entryCost _ _ _ hd
          refine ⟨?_, by dsimp only; rw [RUN_MAX]; omega, ?_⟩
          · dsimp only
            rw [show (chunk :: []) = [chunk] from rfl,
              seqCost_append_single _ _ hck8 hck16, hflush.1, hce]
            omega
          · exact shape_append_single _ _ hck8 hck16

theorem runA_SizeInv (l : List QoiPixel) (s s' : Analyzer)
    (h : Analyzer.runA s l = some s') (hs : SizeInv s) : SizeInv s' := by
  induction l generalizing s with
  | nil => cases h; exact hs
  | cons px rest ih =>
    rw [runA_cons] at h
    revert h
    cases hu : s.update px with
    | none => intro h; cases h
    | some s1 => intro h; exact ih s1 h (update_SizeInv _ _ _ hu hs)

theorem sizeInv_new : SizeInv Analyzer.new :=
  ⟨rfl, by show (0 : Nat) < RUN_MAX; decide, shape_nil⟩

/-- C2: for every finite input pixel sequence, the total byte count
returned by `qoi_analyze` equals 18 (14 header bytes plus 4 trailing
padding bytes) plus `seqCost` of the returned chunk-kind sequence, which
charges 1 byte per Index entry, 1 per Diff8, 2 per Diff16, 3 per Diff24,
1+k per Color entry with k differing channels, 1 byte per short-run flush
group and 2 bytes per long-run flush group (run entries are costed per
flush group, reconstructed from the maximal run blocks of the
sequence). -/
theorem c2_total_bytes_consistency (pxs : List QoiPixel) (n : Nat) (ks : List QoiChunk)
    (h : qoi_analyze pxs = some (n, ks)) : n = 18 + seqCost ks := by
  unfold qoi_analyze at h
  split at h
  next => exact absurd h (by simp)
  next s hr =>
    split at h
    next => exact absurd h (by simp)
    next s2 hf =>
      cases h
      have hinv := runA_SizeInv _ _ _ hr sizeInv_new
      have := flush_cost_shape (QOI_HEADER_LEN + QOI_PADDING_LEN) _ _ hf
        hinv.1 hinv.2.2
      exact this.1

theorem classKind_color_inv (d : DiffOrColor) (m : Nat)
    (h : classKind d = ClassKind.color m) : d = .Color m := by
  cases d with
  | Diff pd => cases pd <;> simp [classKind] at h
  | Color m' => simp [classKind] at h; rw [h]

/-- C10: for every pair of pixels, classification never returns a Color
literal with an all-zero mask; when current equals previous it returns
Diff8 with all-zero (biased) deltas instead; and the analyzer's dispatch
of any classification result never reaches the `unreachable!` arm (the
dispatch is always `some`), even without assuming the pixels differ. -/
theorem c10_no_zero_mask_color (cur prev : QoiPixel) :
    classKind (cur.sub prev) ≠ ClassKind.color 0 ∧
    (cur = prev → cur.sub prev = .Diff (PixelDiff.Diff8 42)) ∧
    (Analyzer.dispatch (cur.sub prev)).isSome := by
  refine ⟨?_, ?_, dispatch_sub_isSome cur prev⟩
  · intro hk
    have hsub := classKind_color_inv _ _ hk
    exact sub_color_countOnes_ne_zero cur prev 0 hsub (by decide)
  · intro he
    rw [he]
    exact sub_self_diff8 prev

/-- C7 (amended): for every pixel pair in which exactly one of the four
channels differs, classification never returns Diff24, even when all four
deltas lie in [-16,15]; when it returns a Color literal, the mask has
popcount 1 (it selects that single channel) and the analyzer dispatches
it at cost 2 bytes.  (Unlike the original claim, classification may also
return Diff8 or Diff16 when the single differing delta fits their
ranges.) -/
theorem c7_single_channel_amended (cur prev : QoiPixel) (h1 : differsCountPx cur prev = 1) :
    classKind (cur.sub prev) ≠ ClassKind.diff24 ∧
    (∀ m, cur.sub prev = .Color m →
      countOnes m = 1 ∧ Analyzer.dispatch (.Color m) = some (2, .Color1)) := by
  obtain ⟨hd24, hcol⟩ := sub_single_channel_aux cur prev h1
  refine ⟨?_, hcol⟩
  intro hk
  cases hsub : cur.sub prev with
  | Diff pd =>
    rw [hsub] at hk
    cases pd with
    | Diff8 v => simp [classKind] at hk
    | Diff16 v => simp [classKind] at hk
    | Diff24 r gba => exact hd24 r gba hsub
  | Color m => rw [hsub] at hk; simp [classKind] at hk

/-- C3: flushing a run with counter n changes nothing when n = 0; appends
exactly n Run8 entries and adds exactly 1 byte when n lies in [1,32];
appends exactly n Run16 entries and adds exactly 2 bytes when n lies in
[33,8224]; in all cases the counter resets to 0.  Reaching the maximum
8224 during update forces an immediate flush, so a streak of 8225
consecutive identical pixels (after the first) produces two flush groups
of 8224 and 1 entries. -/
theorem c3_flush_run_behavior (s : Analyzer) :
    (s.run = 0 → s.flush_run = some s) ∧
    (1 ≤ s.run → s.run ≤ 32 → s.flush_run = some { s with
        filesize := s.filesize + 1,
        chunks := s.chunks ++ List.replicate s.run QoiChunk.Run8,
        run := 0 }) ∧
    (33 ≤ s.run → s.run ≤ 8224 → s.flush_run = some { s with
        filesize := s.filesize + 2,
        chunks := s.chunks ++ List.replicate s.run QoiChunk.Run16,
        run := 0 }) ∧
    (∀ s', s.flush_run = some s' → s'.run = 0) ∧
    (∀ p, s.px_prev = p → s.run = 0 →
      ∃ s' s'', Analyzer.runA s (List.replicate 8225 p) = some s' ∧
        s'.chunks = s.chunks ++ List.replicate 8224 QoiChunk.Run16 ∧
        s'.run = 1 ∧ s'.flush_run = some s'' ∧
        s''.chunks = (s.chunks ++ List.replicate 8224 QoiChunk.Run16) ++
          List.replicate 1 QoiChunk.Run8 ∧ s''.run = 0) :=
  ⟨flush_run_zero s, flush_run_short s, fun h1 h2 => flush_run_long s h1 h2,
   fun s' h => (flush_run_fields s s' h).2.2, streak_8225 s⟩

/-- Witness for C3: the flush cases evaluated at run counters 0, 7 and
100, and the 8225-pixel streak from the initial state. -/
theorem c3_flush_run_behavior_witness :
    Analyzer.new.run = 0 ∧
    Analyzer.new.flush_run = some Analyzer.new ∧
    ({ Analyzer.new with run := 7 } : Analyzer).flush_run =
      some { Analyzer.new with
        filesize := 19, chunks := List.replicate 7 QoiChunk.Run8, run := 0 } ∧
    ({ Analyzer.new with run := 100 } : Analyzer).flush_run =
      some { Analyzer.new with
        filesize := 20, chunks := List.replicate 100 QoiChunk.Run16, run := 0 } ∧
    (∃ s' s'',
      Analyzer.runA Analyzer.new (List.replicate 8225 ⟨0, 0, 0, 255⟩) = some s' ∧
      s'.chunks = Analyzer.new.chunks ++ List.replicate 8224 QoiChunk.Run16 ∧
      s'.run = 1 ∧ s'.flush_run = some s'' ∧
      s''.chunks = (Analyzer.new.chunks ++ List.replicate 8224 QoiChunk.Run16) ++
        List.replicate 1 QoiChunk.Run8 ∧ s''.run = 0) :=
  ⟨rfl, (c3_flush_run_behavior Analyzer.new).1 rfl,
   (c3_flush_run_behavior _).2.1 (by decide) (by decide),
   (c3_flush_run_behavior _).2.2.1 (by decide) (by decide),
   (c3_flush_run_behavior Analyzer.new).2.2.2.2 ⟨0, 0, 0, 255⟩ rfl rfl⟩

/-- Witness for C2: a single Diff24 pixel gives 21 = 18 + 3 bytes. -/
theorem c2_total_bytes_consistency_witness :
    qoi_analyze [⟨1, 2, 3, 4⟩] = some (21, [QoiChunk.Diff24]) ∧
    21 = 18 + seqCost [QoiChunk.Diff24] :=
  ⟨by decide,
   c2_total_bytes_consistency [⟨1, 2, 3, 4⟩] 21 [QoiChunk.Diff24] (by decide)⟩

/-- Witness for C4: three pixels (one Diff24 chunk and a run of two)
give three chunk-kind entries and a histogram summing to 3. -/
theorem c4_one_entry_per_pixel_witness :
    qoi_analyze [⟨1, 2, 3, 4⟩, ⟨1, 2, 3, 4⟩, ⟨1, 2, 3, 4⟩] =
      some (22, [QoiChunk.Diff24, QoiChunk.Run8, QoiChunk.Run8]) ∧
    ([QoiChunk.Diff24, QoiChunk.Run8, QoiChunk.Run8] : List QoiChunk).length = 3 ∧
    histogramSum [QoiChunk.Diff24, QoiChunk.Run8, QoiChunk.Run8] = 3 :=
  ⟨by decide,
   (c4_one_entry_per_pixel [⟨1, 2, 3, 4⟩, ⟨1, 2, 3, 4⟩, ⟨1, 2, 3, 4⟩] 22
     [QoiChunk.Diff24, QoiChunk.Run8, QoiChunk.Run8] (by decide)).1,
   (c4_one_entry_per_pixel [⟨1, 2, 3, 4⟩, ⟨1, 2, 3, 4⟩, ⟨1, 2, 3, 4⟩] 22
     [QoiChunk.Diff24, QoiChunk.Run8, QoiChunk.Run8] (by decide)).2⟩

/-- Witness for C5: the first update of the initial analyzer with pixel
(1,2,3,4) misses the cache and takes the Pixel Algebra path. -/
theorem c5_update_frame_effect_witness :
    ((⟨1, 2, 3, 4⟩ : QoiPixel) ≠ Analyzer.new.px_prev) ∧
    Analyzer.new.flush_run = some Analyzer.new ∧
    ((⟨1, 2, 3, 4⟩ : QoiPixel) ≠ Analyzer.new.dict (pixelHash ⟨1, 2, 3, 4⟩)) ∧
    (∃ cost chunk s2,
      Analyzer.dispatch (QoiPixel.sub ⟨1, 2, 3, 4⟩ Analyzer.new.px_prev) =
        some (cost, chunk) ∧
      cost = entryCost chunk ∧
      Analyzer.new.update ⟨1, 2, 3, 4⟩ = some s2 ∧
      s2.filesize = Analyzer.new.filesize + cost ∧
      s2.chunks = Analyzer.new.chunks ++ [chunk] ∧
      s2.dict (pixelHash ⟨1, 2, 3, 4⟩) = ⟨1, 2, 3, 4⟩ ∧
      (∀ h', h' ≠ pixelHash ⟨1, 2, 3, 4⟩ →
        s2.dict h' = Analyzer.new.dict h') ∧
      s2.px_prev = ⟨1, 2, 3, 4⟩) :=
  ⟨by decide, rfl, by decide,
   (c5_update_frame_effect Analyzer.new ⟨1, 2, 3, 4⟩ (by decide)
     Analyzer.new rfl).2 (by decide)⟩

/-- C6 (counterexample to the claim as stated): after the single-pixel
input [(0,0,0,255)], the pixel (0,0,0,255) has been seen and has hash 63,
yet cache slot 63 still holds the zero pixel: the first pixel equals the
initial previous pixel, is consumed by the run path, and is never written
to the cache, so slot 63 does not hold the most recently seen pixel of
hash 63. -/
theorem c6_cache_invariant_counterexample :
    pixelHash ⟨0, 0, 0, 255⟩ = (63 : Fin 64) ∧
    lastWithHash 63 [⟨0, 0, 0, 255⟩] = some ⟨0, 0, 0, 255⟩ ∧
    (Analyzer.runA Analyzer.new [⟨0, 0, 0, 255⟩]).map (fun s => s.dict 63) =
      some ⟨0, 0, 0, 0⟩ ∧
    (⟨0, 0, 0, 0⟩ : QoiPixel) ≠ ⟨0, 0, 0, 255⟩ := by decide

/-- C6 (amended): at every reachable state during an analysis, cache slot
h holds the most recently seen input pixel that was processed outside the
run path (it differed from the previous pixel at the moment it was
processed) and whose hash equals h, or the initial zero pixel (0,0,0,0)
if no such pixel has been seen yet. -/
theorem c6_cache_invariant_amended (pxs : List QoiPixel) (s' : Analyzer)
    (h : Analyzer.runA Analyzer.new pxs = some s') (hd : Fin 64) :
    s'.dict hd =
      (lastWithHash hd (nonRunSeen Analyzer.new.px_prev pxs)).getD ⟨0, 0, 0, 0⟩ :=
  dict_inv pxs Analyzer.new s' h hd

/-- Witness for the amended C6: after one non-run pixel (1,2,3,4), its
slot holds it, matching the most recent non-run pixel of that hash. -/
theorem c6_cache_invariant_amended_witness :
    Analyzer.runA Analyzer.new [⟨1, 2, 3, 4⟩] = some { Analyzer.new with
      filesize := 21,
      chunks := [QoiChunk.Diff24],
      px_prev := ⟨1, 2, 3, 4⟩,
      dict := Function.update Analyzer.new.dict (pixelHash ⟨1, 2, 3, 4⟩)
        ⟨1, 2, 3, 4⟩ } ∧
    ({ Analyzer.new with
      filesize := 21,
      chunks := [QoiChunk.Diff24],
      px_prev := ⟨1, 2, 3, 4⟩,
      dict := Function.update Analyzer.new.dict (pixelHash ⟨1, 2, 3, 4⟩)
        ⟨1, 2, 3, 4⟩ } : Analyzer).dict (pixelHash ⟨1, 2, 3, 4⟩) =
      (lastWithHash (pixelHash ⟨1, 2, 3, 4⟩)
        (nonRunSeen Analyzer.new.px_prev [⟨1, 2, 3, 4⟩])).getD ⟨0, 0, 0, 0⟩ :=
  ⟨rfl, c6_cache_invariant_amended [⟨1, 2, 3, 4⟩] _ rfl (pixelHash ⟨1, 2, 3, 4⟩)⟩

/-- C7 (counterexample to the claim as stated): current (1,0,0,255)
against previous (0,0,0,255) has exactly one differing channel, but
classification returns Diff8 (the delta 1 fits the Diff8 range), not the
Color literal with the single-channel mask 0b1000 the claim requires. -/
theorem c7_single_channel_counterexample :
    differsCountPx ⟨1, 0, 0, 255⟩ ⟨0, 0, 0, 255⟩ = 1 ∧
    QoiPixel.sub ⟨1, 0, 0, 255⟩ ⟨0, 0, 0, 255⟩ = .Diff (PixelDiff.Diff8 58) ∧
    QoiPixel.sub ⟨1, 0, 0, 255⟩ ⟨0, 0, 0, 255⟩ ≠ .Color 8 := by decide

/-- Witness for the amended C7 at the spec's example: current (0,9,0,255)
against previous (0,0,0,255) gives a Color literal with the 1-channel
mask 0b0100, dispatched at cost 2 bytes, and is not Diff24. -/
theorem c7_single_channel_amended_witness :
    differsCountPx ⟨0, 9, 0, 255⟩ ⟨0, 0, 0, 255⟩ = 1 ∧
    classKind (QoiPixel.sub ⟨0, 9, 0, 255⟩ ⟨0, 0, 0, 255⟩) ≠ ClassKind.diff24 ∧
    QoiPixel.sub ⟨0, 9, 0, 255⟩ ⟨0, 0, 0, 255⟩ = .Color 4 ∧
    countOnes 4 = 1 ∧
    Analyzer.dispatch (.Color 4) = some (2, .Color1) :=
  ⟨by decide,
   (c7_single_channel_amended ⟨0, 9, 0, 255⟩ ⟨0, 0, 0, 255⟩ (by decide)).1,
   by decide,
   ((c7_single_channel_amended ⟨0, 9, 0, 255⟩ ⟨0, 0, 0, 255⟩ (by decide)).2 4
     (by decide)).1,
   ((c7_single_channel_amended ⟨0, 9, 0, 255⟩ ⟨0, 0, 0, 255⟩ (by decide)).2 4
     (by decide)).2⟩

/-- C8 (counterexample to the claim as stated): at the claim's own
example, previous=(0,0,0,255) and current=(16,8,249,255), the deltas
(16,8,-7,0) are outside the Diff16 ranges (16 is not in [-16,15] and 8 is
not in [-8,7]), and classification returns a Color literal with mask
0b1110, not Diff16. -/
theorem c8_diff16_example_counterexample :
    QoiPixel.sub ⟨16, 8, 249, 255⟩ ⟨0, 0, 0, 255⟩ = .Color 14 ∧
    classKind (QoiPixel.sub ⟨16, 8, 249, 255⟩ ⟨0, 0, 0, 255⟩) ≠
      ClassKind.diff16 := by decide

/-- Witness for the amended C8 at the corrected example: current
(0,0,0,255) against previous (16,8,249,255) has deltas (-16,-8,7,0) and
classifies as Diff16. -/
theorem c8_diff16_range_amended_witness :
    chDelta (255 : Fin 256) 255 = 0 ∧
    ¬(inBounds (-2) 1 (chDelta (0 : Fin 256) 16) ∧
      inBounds (-2) 1 (chDelta (0 : Fin 256) 8) ∧
      inBounds (-2) 1 (chDelta (0 : Fin 256) 249)) ∧
    inBounds (-16) 15 (chDelta (0 : Fin 256) 16) ∧
    inBounds (-8) 7 (chDelta (0 : Fin 256) 8) ∧
    inBounds (-8) 7 (chDelta (0 : Fin 256) 249) ∧
    QoiPixel.sub ⟨0, 0, 0, 255⟩ ⟨16, 8, 249, 255⟩ =
      .Diff (PixelDiff.Diff16 15) :=
  ⟨by decide, by decide, by decide, by decide, by decide,
   c8_diff16_range_amended ⟨0, 0, 0, 255⟩ ⟨16, 8, 249, 255⟩ (by decide)
     (by decide) (by decide) (by decide) (by decide)⟩

/-- C9: for every input pixel sequence, every (current, previous) pair on
which the analyzer invokes `QoiPixel::sub` has current different from
previous: an update whose pixel equals the previous pixel takes the run
path and performs no cache lookup or delta computation, so classify(p,p)
is never invoked. -/
theorem c9_never_classify_equal (pxs : List QoiPixel)
    (pr : QoiPixel × QoiPixel)
    (h : pr ∈ Analyzer.runCalls Analyzer.new pxs) : pr.1 ≠ pr.2 :=
  runCalls_ne pxs Analyzer.new pr h

/-- Witness for C9: the one classify call of a single-pixel analysis is
on (current, previous) = ((1,2,3,4), (0,0,0,255)), which differ. -/
theorem c9_never_classify_equal_witness :
    ((⟨1, 2, 3, 4⟩, ⟨0, 0, 0, 255⟩) : QoiPixel × QoiPixel) ∈
      Analyzer.runCalls Analyzer.new [⟨1, 2, 3, 4⟩] ∧
    ((⟨1, 2, 3, 4⟩, ⟨0, 0, 0, 255⟩) : QoiPixel × QoiPixel).1 ≠
      ((⟨1, 2, 3, 4⟩, ⟨0, 0, 0, 255⟩) : QoiPixel × QoiPixel).2 :=
  ⟨by decide, c9_never_classify_equal [⟨1, 2, 3, 4⟩] _ (by decide)⟩

/-- Witness for C10: at (3,3,3,3) against (0,0,0,255) the result is not a
zero-mask Color and dispatch succeeds; at equal pixels (5,6,7,8) the
result is Diff8 with all-zero biased deltas (payload 42). -/
theorem c10_no_zero_mask_color_witness :
    classKind (QoiPixel.sub ⟨3, 3, 3, 3⟩ ⟨0, 0, 0, 255⟩) ≠ ClassKind.color 0 ∧
    ((⟨5, 6, 7, 8⟩ : QoiPixel) = ⟨5, 6, 7, 8⟩ ∧
      QoiPixel.sub ⟨5, 6, 7, 8⟩ ⟨5, 6, 7, 8⟩ = .Diff (PixelDiff.Diff8 42)) ∧
    (Analyzer.dispatch (QoiPixel.sub ⟨3, 3, 3, 3⟩ ⟨0, 0, 0, 255⟩)).isSome :=
  ⟨(c10_no_zero_mask_color ⟨3, 3, 3, 3⟩ ⟨0, 0, 0, 255⟩).1,
   ⟨rfl, (c10_no_zero_mask_color ⟨5, 6, 7, 8⟩ ⟨5, 6, 7, 8⟩).2.1 rfl⟩,
   (c10_no_zero_mask_color ⟨3, 3, 3, 3⟩ ⟨0, 0, 0, 255⟩).2.2⟩
